import Mathlib

/-!
Verification of the filter-expression engine of the
resident-advisor-events-scraper repository.

The embedded code comes from:
* `src/advanced_event_fetcher.py` — class `AdvancedFilterExpression`
  (`_parse_expression`, `_can_handle_in_graphql`, `_add_graphql_filter`,
  `_add_client_filter`, `apply_client_filters`,
  `_event_matches_client_filters`, `_apply_filter_operator`);
* `src/advanced_search.py` — class `AdvancedSearchFilterExpression`
  (`_apply_filter_operator`);
* `src/enhanced_event_fetcher.py` — class `FilterExpression`
  (`_parse_expression`, `_can_handle_in_graphql`, `_add_graphql_filter`).

Python strings are modelled as Lean `String`; Python `float` is modelled as
`Rat` produced by a decimal parser (see `pyFloat?`); Python exceptions
(`ValueError` from tuple unpacking) are modelled with `Except String`.
All definitions are structurally recursive so that they evaluate inside the
kernel.
-/

/-- Predicate true on the characters Python's `\s` / `str.strip` treat as whitespace
(ASCII approximation). -/
def isWs (c : Char) : Bool :=
  c == ' ' || c == '\t' || c == '\n' || c == '\r'

/-- Drop a leading run of whitespace characters. -/
def dropWs : List Char → List Char
  | [] => []
  | c :: cs => if isWs c then dropWs cs else c :: cs

/-- Model of Python `str.strip()` (no arguments): remove leading and trailing
whitespace. -/
def pyStrip (s : String) : String :=
  ⟨((dropWs s.data).reverse |> dropWs).reverse⟩

/-- Model of Python `str.lower()` (ASCII approximation). -/
def pyLower (s : String) : String :=
  ⟨s.data.map Char.toLower⟩

/-- Model of Python `sub in s` for a one-character string `sub`. -/
def pyCharIn (c : Char) (s : String) : Bool :=
  s.data.contains c

/-- Infix (contiguous sublist) test on character lists. -/
def listInfix (sub : List Char) : List Char → Bool
  | [] => sub.isEmpty
  | c :: cs => sub.isPrefixOf (c :: cs) || listInfix sub cs

/-- Model of Python `sub in s` (substring containment). -/
def pyStrIn (sub s : String) : Bool :=
  listInfix sub.data s.data

/-- Model of Python `s.split(sep)` for a one-character separator `sep`
(always returns at least one piece; empty pieces are kept). -/
def splitOnChar (sep : Char) : List Char → List (List Char)
  | [] => [[]]
  | c :: cs =>
    if c == sep then [] :: splitOnChar sep cs
    else
      match splitOnChar sep cs with
      | [] => [[c]]
      | p :: ps => (c :: p) :: ps

/-- The split of `splitOnChar`, packaged on `String`. -/
def pySplit (sep : Char) (s : String) : List String :=
  (splitOnChar sep s.data).map List.asString

/-- Join string pieces back with `":"` (used to model `split(':', 2)`, whose
third component keeps any further colons). -/
def joinColon : List String → String
  | [] => ""
  | [s] => s
  | s :: rest => s ++ ":" ++ joinColon rest

/-- Digits-to-number accumulator used by the float parser. -/
def digitsVal : List Char → Nat → Nat
  | [], acc => acc
  | c :: cs, acc => digitsVal cs (acc * 10 + (c.toNat - '0'.toNat))

/-- Unsigned part of `pyFloat?`: accepts `"123"`, `"123.45"`, `"123."`,
`".5"`, rejects everything else. -/
def parseUFloat (cs : List Char) : Option Rat :=
  let ip := cs.takeWhile Char.isDigit
  let rest := cs.dropWhile Char.isDigit
  match rest with
  | [] => if ip.isEmpty then none else some (digitsVal ip 0)
  | '.' :: fp =>
    if fp.all Char.isDigit && !(ip.isEmpty && fp.isEmpty) then
      some ((digitsVal ip 0 : Rat) + (digitsVal fp 0 : Rat) / ((10 : Rat) ^ fp.length))
    else none
  | _ => none

/-- Model of Python `float(s)` on the decimal literals the engine actually
compares (optional sign, digits, optional fractional part); exponents,
`inf`/`nan` and binary rounding are outside the modelled fragment.
Failure (`ValueError`) is `none`. -/
def pyFloat? (s : String) : Option Rat :=
  match s.data with
  | [] => none
  | '-' :: rest => (parseUFloat rest).map Neg.neg
  | '+' :: rest => parseUFloat rest
  | cs => parseUFloat cs

/-- Model of the comprehension `[float(v) for v in l]`: all parses must
succeed, otherwise the comprehension raises (`none`). -/
def pyFloats? : List String → Option (List Rat)
  | [] => some []
  | v :: vs =>
    match pyFloat? v, pyFloats? vs with
    | some q, some qs => some (q :: qs)
    | _, _ => none

/-- Model of `[str(v).lower().strip() for v in values if v]` — the
normalization applied to both the extracted values and the operand values at
the top of `_apply_filter_operator`. -/
def normalizeValues (vs : List String) : List String :=
  (vs.filter (fun v => !(v == ""))).map (fun v => pyStrip (pyLower v))

/-- Model of `AdvancedFilterExpression._apply_filter_operator`
(src/advanced_event_fetcher.py, lines 454–562), translated branch by branch.
The `logical_op` argument is received but never used, exactly as in the
source. -/
def advApplyFilterOperator (event_values : List String) (operator : String)
    (filter_values : List String) (logical_op : String) : Bool :=
  let evs := normalizeValues event_values
  let fvs := normalizeValues filter_values
  if operator == "eq" then
    evs.any (fun ev => fvs.contains ev)
  else if operator == "in" then
    evs.any (fun ev => fvs.contains ev)
  else if operator == "nin" then
    !(evs.any (fun ev => fvs.contains ev))
  else if operator == "has" then
    fvs.any (fun fv => evs.any (fun ev => pyStrIn (pyLower fv) (pyLower ev)))
  else if operator == "contains_all" then
    fvs.all (fun fv => evs.contains fv)
  else if operator == "contains_any" then
    fvs.any (fun fv => evs.contains fv)
  else if operator == "contains_none" then
    !(fvs.any (fun fv => evs.contains fv))
  else if operator == "all" then
    fvs.all (fun fv => evs.contains fv)
  else if operator == "gt" || operator == "lt" || operator == "gte" || operator == "lte" then
    if evs.isEmpty || fvs.isEmpty then false
    else
      match pyFloats? evs, pyFloat? (fvs.getD 0 "") with
      | some nevs, some nfv =>
        if operator == "gt" then nevs.any (fun ev => decide (nfv < ev))
        else if operator == "lt" then nevs.any (fun ev => decide (ev < nfv))
        else if operator == "gte" then nevs.any (fun ev => decide (nfv ≤ ev))
        else nevs.any (fun ev => decide (ev ≤ nfv))
      | _, _ => false
  else if operator == "between" then
    if evs.isEmpty || fvs.length < 2 then false
    else
      match pyFloats? evs, pyFloat? (fvs.getD 0 ""), pyFloat? (fvs.getD 1 "") with
      | some nevs, some min_val, some max_val =>
        nevs.any (fun ev => decide (min_val ≤ ev) && decide (ev ≤ max_val))
      | _, _, _ => false
  else if operator == "starts" then
    if evs.isEmpty || fvs.isEmpty then false
    else
      let prefix_ := pyLower (fvs.getD 0 "")
      evs.any (fun ev => prefix_.data.isPrefixOf ev.data)
  else if operator == "ends" then
    if evs.isEmpty || fvs.isEmpty then false
    else
      let suffix_ := pyLower (fvs.getD 0 "")
      evs.any (fun ev => suffix_.data.isSuffixOf ev.data)
  else
    true

/-- Model of `AdvancedSearchFilterExpression._apply_filter_operator`
(src/advanced_search.py, lines 332–402), translated branch by branch.
In the numeric branch the guards mirror Python's exception behaviour:
a failing `float` conversion, or indexing an empty operand list, is caught
and yields `false`; `between` with fewer than two operands falls out of the
`try` block and reaches the final `return True`. -/
def searchApplyFilterOperator (result_values : List String) (operator : String)
    (filter_values : List String) (logical_op : String) : Bool :=
  let rvs := normalizeValues result_values
  let fvs := normalizeValues filter_values
  if operator == "eq" then
    rvs.any (fun rv => fvs.any (fun fv => rv == fv))
  else if operator == "ne" then
    !(rvs.any (fun rv => fvs.any (fun fv => rv == fv)))
  else if operator == "in" || operator == "any" || operator == "contains_any" then
    rvs.any (fun rv => fvs.contains rv)
  else if operator == "nin" || operator == "contains_none" then
    !(rvs.any (fun rv => fvs.contains rv))
  else if operator == "has" then
    fvs.any (fun fv => rvs.any (fun rv => pyStrIn (pyLower fv) (pyLower rv)))
  else if operator == "contains_all" || operator == "all" then
    fvs.all (fun fv => rvs.any (fun rv => pyStrIn (pyLower fv) (pyLower rv)))
  else if operator == "starts" then
    fvs.any (fun fv => rvs.any (fun rv => fv.data.isPrefixOf rv.data))
  else if operator == "ends" then
    fvs.any (fun fv => rvs.any (fun rv => fv.data.isSuffixOf rv.data))
  else if operator == "gt" || operator == "lt" || operator == "gte" ||
          operator == "lte" || operator == "between" then
    match pyFloats? rvs with
    | none => false
    | some nrvs =>
      if operator == "between" then
        if 2 ≤ fvs.length then
          match pyFloat? (fvs.getD 0 ""), pyFloat? (fvs.getD 1 "") with
          | some min_val, some max_val =>
            nrvs.any (fun rv => decide (min_val ≤ rv) && decide (rv ≤ max_val))
          | _, _ => false
        else true
      else
        match pyFloat? (fvs.getD 0 "") with
        | some nfv =>
          if operator == "gt" then nrvs.any (fun rv => decide (nfv < rv))
          else if operator == "lt" then nrvs.any (fun rv => decide (rv < nfv))
          else if operator == "gte" then nrvs.any (fun rv => decide (nfv ≤ rv))
          else nrvs.any (fun rv => decide (rv ≤ nfv))
        | none => false
  else
    true

/-! ## Expression parsing (`_parse_expression` and helpers) -/

/-- After a whitespace run and a logical token, the separator regex
`\s+(AND|OR|NOT)\s+` still requires one more whitespace run; on success the
returned remainder starts after that run. -/
def afterTok (tok : String) (cs : List Char) : Option (String × List Char) :=
  match cs with
  | [] => none
  | c :: rest => if isWs c then some (tok, dropWs rest) else none

/-- Try to match the separator regex `\s+(AND|OR|NOT)\s+` at the head of
`cs`, returning the captured token and the remainder after the match. -/
def matchSep (cs : List Char) : Option (String × List Char) :=
  match cs with
  | [] => none
  | c :: rest0 =>
    if isWs c then
      let rest := dropWs rest0
      if rest.take 3 == ['A', 'N', 'D'] then afterTok "AND" (rest.drop 3)
      else if rest.take 2 == ['O', 'R'] then afterTok "OR" (rest.drop 2)
      else if rest.take 3 == ['N', 'O', 'T'] then afterTok "NOT" (rest.drop 3)
      else none
    else none

/-- Worker for the split: scans left to right, flushing the current piece and
the captured token at each separator match.  `fuel` bounds the recursion;
one unit is spent per step and every step consumes at least one input
character, so `fuel = input length` never runs out. -/
def reSplitAux : Nat → List Char → List Char → List String → List String
  | _, [], cur, out => out ++ [⟨cur.reverse⟩]
  | 0, rest, cur, out => out ++ [⟨cur.reverse ++ rest⟩]
  | fuel + 1, c :: cs, cur, out =>
    match matchSep (c :: cs) with
    | some (tok, rest) => reSplitAux fuel rest [] (out ++ [⟨cur.reverse⟩, tok])
    | none => reSplitAux fuel cs (c :: cur) out

/-- Model of `re.split(r'\s+(AND|OR|NOT)\s+', expression)`: split on
whitespace-surrounded logical tokens, keeping the captured tokens in the
output list. -/
def reSplitLogical (s : String) : List String :=
  reSplitAux s.data.length s.data [] []

/-- One clause of `client_filters`: the dict literal built by
`_add_client_filter`. -/
structure ClientFilter where
  field : String
  operator : String
  values : List String
  logical_op : String
deriving Repr, DecidableEq

/-- A GraphQL filter descriptor as built by
`AdvancedFilterExpression._add_graphql_filter`: `{"eq": values}` or
`{"any": [v.strip() for v in values.split(',')]}`. -/
inductive GqlFilter where
  | eq (value : String)
  | any (values : List String)
deriving Repr, DecidableEq

/-- Python `dict` assignment `d[k] = v` on an association list: update in
place (keeping the key's position) when the key exists, append otherwise. -/
def dictInsert {α : Type} (d : List (String × α)) (k : String) (v : α) :
    List (String × α) :=
  if d.any (fun p => p.1 == k) then
    d.map (fun p => if p.1 == k then (k, v) else p)
  else d ++ [(k, v)]

/-- Python `d.get(k)` on an association list. -/
def dictLookup {α : Type} (d : List (String × α)) (k : String) : Option α :=
  (d.find? (fun p => p.1 == k)).map Prod.snd

/-- The parsed state of one `AdvancedFilterExpression`:
`self.graphql_filters` and `self.client_filters`. -/
structure FilterPlan where
  graphql_filters : List (String × GqlFilter)
  client_filters : List ClientFilter
deriving Repr, DecidableEq

/-- Model of `AdvancedFilterExpression._can_handle_in_graphql`
(src/advanced_event_fetcher.py, lines 384–393). -/
def canHandleInGraphql (_field : String) (operator : String) (_values : String) :
    Bool :=
  if operator == "eq" || operator == "any" then true
  else if ["in", "has", "contains_all", "contains_any", "all",
           "gt", "lt", "gte", "lte", "between", "starts", "ends",
           "nin"].contains operator then false
  else false

/-- Model of `AdvancedFilterExpression._add_graphql_filter`
(src/advanced_event_fetcher.py, lines 395–402). -/
def addGraphqlFilter (gf : List (String × GqlFilter))
    (field operator values : String) : List (String × GqlFilter) :=
  if operator == "eq" then dictInsert gf field (GqlFilter.eq values)
  else if operator == "any" then
    dictInsert gf field (GqlFilter.any ((pySplit ',' values).map pyStrip))
  else gf

/-- Model of `_add_client_filter` (identical in src/advanced_event_fetcher.py and
src/enhanced_event_fetcher.py): append
`{'field': ..., 'operator': ..., 'values': values.split(',') if ',' in
values else [values], 'logical_op': ...}`. -/
def addClientFilter (cfs : List ClientFilter)
    (field operator values logical_op : String) : List ClientFilter :=
  cfs ++ [{ field := field, operator := operator,
            values := if pyCharIn ',' values then pySplit ',' values else [values],
            logical_op := logical_op }]

/-- Model of `part.split(':', 2)` unpacked into three names: with two or more
colons it yields the text before the first colon, the text between the first
and second colons, and the (colon-preserving) remainder; with fewer pieces
the 3-way unpacking raises `ValueError`. -/
def splitColon2 (part : String) : Option (String × String × String) :=
  match pySplit ':' part with
  | f :: o :: v :: rest => some (f, o, joinColon (v :: rest))
  | _ => none

/-- One iteration of the parse loop in
`AdvancedFilterExpression._parse_expression`
(src/advanced_event_fetcher.py, lines 356–382).  The state is
`(current_operator, plan)`.  A part with exactly one colon makes the 3-way
unpacking of `part.split(':', 2)` raise `ValueError`, modelled as `.error`. -/
def processPart (st : String × FilterPlan) (part : String) :
    Except String (String × FilterPlan) :=
  let cur := st.1
  let plan := st.2
  let part := pyStrip part
  if part == "AND" || part == "OR" || part == "NOT" then .ok (part, plan)
  else if pyCharIn ':' part then
    match splitColon2 part with
    | none => .error "ValueError: not enough values to unpack (expected 3)"
    | some (field, operator, values) =>
      if field == "genre" && operator == "contains_any" then
        .ok (cur, { plan with
          graphql_filters := addGraphqlFilter plan.graphql_filters field "any" values })
      else if canHandleInGraphql field operator values then
        .ok (cur, { plan with
          graphql_filters := addGraphqlFilter plan.graphql_filters field operator values })
      else
        .ok (cur, { plan with
          client_filters := addClientFilter plan.client_filters field operator values cur })
  else .ok (cur, plan)

/-- Run a parse loop over the split parts, propagating a raised exception. -/
def runParts {σ : Type} (step : σ → String → Except String σ) :
    List String → σ → Except String σ
  | [], st => .ok st
  | p :: ps, st =>
    match step st p with
    | .error e => .error e
    | .ok st' => runParts step ps st'

/-- Model of `AdvancedFilterExpression.__init__` + `_parse_expression` on a non-empty
expression string: split on logical tokens, then fold the per-part loop
starting from empty filters and `current_operator = 'AND'`. -/
def parseExpression (expression : String) : Except String FilterPlan :=
  match runParts processPart (reSplitLogical expression)
      ("AND", ⟨[], []⟩) with
  | .error e => .error e
  | .ok st => .ok st.2

/-! ## The enhanced engine (`FilterExpression` in
src/enhanced_event_fetcher.py) -/

/-- A GraphQL descriptor of the enhanced engine is a small string-to-string
dict (`{"eq": v}`, `{"ne": v}`, or a merged `{"gte": v, "lte": w}`). -/
abbrev EnhDescriptor := List (String × String)

/-- The parsed state of one enhanced `FilterExpression`. -/
structure EnhFilterPlan where
  graphql_filters : List (String × EnhDescriptor)
  client_filters : List ClientFilter
deriving Repr, DecidableEq

/-- Model of `FilterExpression._can_handle_in_graphql`
(src/enhanced_event_fetcher.py, lines 58–71). -/
def enhCanHandleInGraphql (_field : String) (operator : String)
    (_values : String) : Bool :=
  if ["eq", "ne", "gte", "lte"].contains operator then true
  else if operator == "in" then false
  else false

/-- Model of `FilterExpression._add_graphql_filter`
(src/enhanced_event_fetcher.py, lines 73–86): `eq`/`ne` overwrite the whole
descriptor; `gte`/`lte` merge a key into the field's existing descriptor
(creating an empty one first when the field is absent). -/
def enhAddGraphqlFilter (gf : List (String × EnhDescriptor))
    (field operator values : String) : List (String × EnhDescriptor) :=
  if operator == "eq" then dictInsert gf field [("eq", values)]
  else if operator == "ne" then dictInsert gf field [("ne", values)]
  else if operator == "gte" then
    dictInsert gf field (dictInsert ((dictLookup gf field).getD []) "gte" values)
  else if operator == "lte" then
    dictInsert gf field (dictInsert ((dictLookup gf field).getD []) "lte" values)
  else gf

/-- One iteration of the parse loop in `FilterExpression._parse_expression`
(src/enhanced_event_fetcher.py, lines 36–56): same shape as the advanced
loop but with no genre special case and the enhanced classifier. -/
def enhProcessPart (st : String × EnhFilterPlan) (part : String) :
    Except String (String × EnhFilterPlan) :=
  let cur := st.1
  let plan := st.2
  let part := pyStrip part
  if part == "AND" || part == "OR" || part == "NOT" then .ok (part, plan)
  else if pyCharIn ':' part then
    match splitColon2 part with
    | none => .error "ValueError: not enough values to unpack (expected 3)"
    | some (field, operator, values) =>
      if enhCanHandleInGraphql field operator values then
        .ok (cur, { plan with
          graphql_filters := enhAddGraphqlFilter plan.graphql_filters field operator values })
      else
        .ok (cur, { plan with
          client_filters := addClientFilter plan.client_filters field operator values cur })
  else .ok (cur, plan)

/-- Model of `FilterExpression._parse_expression` of the enhanced engine, end to
end. -/
def enhParseExpression (expression : String) : Except String EnhFilterPlan :=
  match runParts enhProcessPart (reSplitLogical expression)
      ("AND", ⟨[], []⟩) with
  | .error e => .error e
  | .ok st => .ok st.2

/-! ## Plan evaluation (`apply_client_filters`) -/

/-- A fetched record, abstracting the field-extraction step
`_get_event_field_values` (spec §4.2): the engine reads a record only
through the finite mapping from field name to the extracted, possibly
multi-valued string sequence, so a Record is modelled as that mapping.
The per-field projections over the raw event JSON (genre keywords from the
title, artist names, venue name, …) are outside every claim, all of which
quantify over the extracted value sequences. -/
structure Event where
  fields : List (String × List String)
deriving Repr, DecidableEq

/-- Field extraction on the modelled record: the stored value sequence, or
the empty sequence when the field is absent. -/
def getEventFieldValues (event : Event) (field : String) : List String :=
  (dictLookup event.fields field).getD []

/-- Model of `AdvancedFilterExpression._event_matches_client_filters`
(src/advanced_event_fetcher.py, lines 434–452): loop over the client
filters, returning `False` at the first non-matching clause. -/
def eventMatchesClientFilters (cfs : List ClientFilter) (event : Event) : Bool :=
  match cfs with
  | [] => true
  | cf :: rest =>
    let event_values := getEventFieldValues event cf.field
    let matched :=
      advApplyFilterOperator event_values cf.operator cf.values cf.logical_op
    if !matched then false else eventMatchesClientFilters rest event

/-- Model of `AdvancedFilterExpression.apply_client_filters`
(src/advanced_event_fetcher.py, lines 421–432): return the input unchanged
when there are no client filters, otherwise keep exactly the events that
match them all. -/
def applyClientFilters (cfs : List ClientFilter) (events : List Event) :
    List Event :=
  if cfs.isEmpty then events
  else events.filter (fun event => eventMatchesClientFilters cfs event)

/-! ## Helper lemmas -/

/-- The early-return loop of `_event_matches_client_filters` is the
conjunction over all client clauses. -/
theorem eventMatches_eq_all (cfs : List ClientFilter) (event : Event) :
    eventMatchesClientFilters cfs event =
      cfs.all (fun cf =>
        advApplyFilterOperator (getEventFieldValues event cf.field)
          cf.operator cf.values cf.logical_op) := by
  induction cfs with
  | nil => rfl
  | cons cf rest ih =>
    simp only [eventMatchesClientFilters, List.all_cons, ih]
    cases advApplyFilterOperator (getEventFieldValues event cf.field)
        cf.operator cf.values cf.logical_op <;> simp

/-- Lemma: `apply_client_filters` is `List.filter` by the matcher, also when the
clause list is empty. -/
theorem applyClientFilters_eq_filter (cfs : List ClientFilter)
    (events : List Event) :
    applyClientFilters cfs events =
      events.filter (fun event => eventMatchesClientFilters cfs event) := by
  cases cfs with
  | nil => simp [applyClientFilters, eventMatchesClientFilters]
  | cons cf rest => simp [applyClientFilters]

theorem contains_true_iff (l : List String) (x : String) :
    l.contains x = true ↔ x ∈ l :=
  List.elem_iff

theorem filter_idem {α : Type} (p : α → Bool) (l : List α) :
    (l.filter p).filter p = l.filter p := by
  induction l with
  | nil => rfl
  | cons a l ih =>
    by_cases h : p a = true <;> simp [List.filter_cons, h, ih]

/-- Claim C1: for every plan and record sequence, `apply_client_filters`
returns exactly the subsequence of the input records on which every
client-side clause's operator predicate evaluates true; the clauses are
combined with logical AND, and the stored `logical_op` of a clause has no
effect on the evaluation. -/
theorem C1_apply_client_filters_and_subsequence (cfs : List ClientFilter)
    (events : List Event) :
    applyClientFilters cfs events =
      events.filter (fun event => cfs.all (fun cf =>
        advApplyFilterOperator (getEventFieldValues event cf.field)
          cf.operator cf.values cf.logical_op))
    ∧ (applyClientFilters cfs events).Sublist events
    ∧ ∀ (vals : List String) (op : String) (fvs : List String)
        (lop lop' : String),
        advApplyFilterOperator vals op fvs lop =
          advApplyFilterOperator vals op fvs lop' := by
  refine ⟨?_, ?_, fun _ _ _ _ _ => rfl⟩
  · rw [applyClientFilters_eq_filter]
    simp only [eventMatches_eq_all]
  · rw [applyClientFilters_eq_filter]
    exact List.filter_sublist _

/-- Claim C9: applying the client-side evaluation twice gives the same
result as applying it once. -/
theorem C9_apply_client_filters_idempotent (cfs : List ClientFilter)
    (events : List Event) :
    applyClientFilters cfs (applyClientFilters cfs events) =
      applyClientFilters cfs events := by
  simp only [applyClientFilters_eq_filter]
  exact filter_idem _ events

/-- Claim C10: in `AdvancedFilterExpression._apply_filter_operator` the
operators `eq`, `in` and `contains_any` are extensionally the same
predicate: each is true exactly when the normalized extracted-value set
meets the normalized operand set; in particular `eq` with a multi-valued
operand list is set membership, not single-value equality. -/
theorem C10_eq_in_contains_any_same_predicate (evs fvs : List String)
    (lop : String) :
    advApplyFilterOperator evs "eq" fvs lop =
      advApplyFilterOperator evs "in" fvs lop
    ∧ advApplyFilterOperator evs "eq" fvs lop =
      advApplyFilterOperator evs "contains_any" fvs lop
    ∧ (advApplyFilterOperator evs "eq" fvs lop = true ↔
        ∃ x, x ∈ normalizeValues evs ∧ x ∈ normalizeValues fvs) := by
  refine ⟨rfl, ?_, ?_⟩
  · show (normalizeValues evs).any (fun ev => (normalizeValues fvs).contains ev) =
      (normalizeValues fvs).any (fun fv => (normalizeValues evs).contains fv)
    rw [Bool.eq_iff_iff]
    simp only [List.any_eq_true, contains_true_iff]
    exact ⟨fun ⟨x, h1, h2⟩ => ⟨x, h2, h1⟩, fun ⟨x, h1, h2⟩ => ⟨x, h2, h1⟩⟩
  · show (normalizeValues evs).any (fun ev => (normalizeValues fvs).contains ev) = true ↔ _
    simp only [List.any_eq_true, contains_true_iff]

/-- Claim C6: `contains_none` is the exact boolean negation of
`contains_any` for the same operand list and extracted values, in both the
advanced evaluator and the search evaluator. -/
theorem C6_contains_none_negation (evs fvs : List String) (lop : String) :
    advApplyFilterOperator evs "contains_none" fvs lop =
      !(advApplyFilterOperator evs "contains_any" fvs lop)
    ∧ searchApplyFilterOperator evs "contains_none" fvs lop =
      !(searchApplyFilterOperator evs "contains_any" fvs lop) :=
  ⟨rfl, rfl⟩

/-- Claim C7: parsing `"genre:eq:techno"` yields exactly the server-side
mapping `{"genre": {"eq": "techno"}}` and no client-side clauses. -/
theorem C7_genre_eq_techno_roundtrip :
    parseExpression "genre:eq:techno" =
      .ok ⟨[("genre", GqlFilter.eq "techno")], []⟩ := by
  rfl

theorem isPrefixOf_self {α : Type} [BEq α] [LawfulBEq α] (l : List α) :
    l.isPrefixOf l = true := by
  induction l with
  | nil => rfl
  | cons a l ih => simp [List.isPrefixOf, ih]

theorem listInfix_self (l : List Char) : listInfix l l = true := by
  cases l with
  | nil => rfl
  | cons c cs => simp [listInfix, isPrefixOf_self]

theorem pyStrIn_self (s : String) : pyStrIn s s = true :=
  listInfix_self s.data

/-- Claim C3 (code bug): constructing a plan from the one-colon expression
`"genre:techno"` raises `ValueError` (the 3-way unpacking of
`part.split(':', 2)` gets only 2 values), so plan construction is not
raise-free; for an expression with no colon at all, such as
`"genre-techno"`, the parse succeeds with an empty plan whose evaluation
returns every input record unchanged. -/
theorem C3_one_colon_raises_no_colon_noop :
    parseExpression "genre:techno" =
      .error "ValueError: not enough values to unpack (expected 3)"
    ∧ parseExpression "genre-techno" = .ok ⟨[], []⟩
    ∧ ∀ events : List Event, applyClientFilters [] events = events :=
  ⟨rfl, rfl, fun _ => rfl⟩

/-- Claim C5: a clause whose operator string is not in the recognized
operator set of the evaluator passes every record: the fall-through of both
`_apply_filter_operator` implementations returns `True`. -/
theorem C5_unknown_operator_pass_through (op : String) (evs fvs : List String)
    (lop : String)
    (hadv : op ∉ ["eq", "in", "nin", "has", "contains_all", "contains_any",
      "contains_none", "all", "gt", "lt", "gte", "lte", "between",
      "starts", "ends"])
    (hsearch : op ∉ ["eq", "ne", "in", "any", "contains_any", "nin",
      "contains_none", "has", "contains_all", "all", "starts", "ends",
      "gt", "lt", "gte", "lte", "between"]) :
    advApplyFilterOperator evs op fvs lop = true
    ∧ searchApplyFilterOperator evs op fvs lop = true := by
  simp only [List.mem_cons, List.not_mem_nil, or_false, not_or] at hadv hsearch
  obtain ⟨a1, a2, a3, a4, a5, a6, a7, a8, a9, a10, a11, a12, a13, a14, a15⟩ := hadv
  obtain ⟨b1, b2, b3, b4, b5, b6, b7, b8, b9, b10, b11, b12, b13, b14, b15,
    b16, b17⟩ := hsearch
  constructor
  · simp [advApplyFilterOperator, a1, a2, a3, a4, a5, a6, a7, a8, a9, a10,
      a11, a12, a13, a14, a15]
  · simp [searchApplyFilterOperator, b1, b2, b3, b4, b5, b6, b7, b8, b9, b10,
      b11, b12, b13, b14, b15, b16, b17]

/-- Witness for C5 at the concrete unrecognized operator `"foo"`. -/
theorem C5_unknown_operator_pass_through_witness :
    advApplyFilterOperator ["x"] "foo" ["y"] "AND" = true
    ∧ searchApplyFilterOperator ["x"] "foo" ["y"] "AND" = true :=
  C5_unknown_operator_pass_through "foo" ["x"] ["y"] "AND" (by decide) (by decide)

/-- Counterexample to claim C2 as stated: in
`AdvancedFilterExpression._apply_filter_operator` the operator string
`"ne"` has no branch, so on a record whose normalized value set equals the
operand set it falls through to `True` instead of the claimed `false`;
moreover on the empty-equals-empty set `eq` yields `false`, not the claimed
`true`. -/
theorem C2_counterexample_ne_passes :
    advApplyFilterOperator ["techno"] "ne" ["techno"] "AND" = true
    ∧ advApplyFilterOperator ([] : List String) "eq" [] "AND" = false := by
  decide

/-- Claim C2, amended: for a record whose normalized extracted value set is
nonempty and exactly equals the normalized operand value set, `eq`, `in`,
`any`, `contains_any` and `contains_all` evaluate true and `nin` and
`contains_none` evaluate false in both evaluators; `ne` evaluates false in
the search evaluator, but true in the advanced evaluator, where `ne` (like
`any`) is not a recognized operator and falls through. -/
theorem C2_amended_exact_operand_set (evs fvs : List String) (lop : String)
    (hset : ∀ x, x ∈ normalizeValues evs ↔ x ∈ normalizeValues fvs)
    (hne : normalizeValues evs ≠ []) :
    advApplyFilterOperator evs "eq" fvs lop = true
    ∧ advApplyFilterOperator evs "in" fvs lop = true
    ∧ advApplyFilterOperator evs "any" fvs lop = true
    ∧ advApplyFilterOperator evs "contains_any" fvs lop = true
    ∧ advApplyFilterOperator evs "contains_all" fvs lop = true
    ∧ advApplyFilterOperator evs "nin" fvs lop = false
    ∧ advApplyFilterOperator evs "contains_none" fvs lop = false
    ∧ advApplyFilterOperator evs "ne" fvs lop = true
    ∧ searchApplyFilterOperator evs "eq" fvs lop = true
    ∧ searchApplyFilterOperator evs "ne" fvs lop = false
    ∧ searchApplyFilterOperator evs "in" fvs lop = true
    ∧ searchApplyFilterOperator evs "any" fvs lop = true
    ∧ searchApplyFilterOperator evs "contains_any" fvs lop = true
    ∧ searchApplyFilterOperator evs "contains_all" fvs lop = true
    ∧ searchApplyFilterOperator evs "nin" fvs lop = false
    ∧ searchApplyFilterOperator evs "contains_none" fvs lop = false := by
  obtain ⟨v, hv⟩ := List.exists_mem_of_ne_nil _ hne
  have hvf : v ∈ normalizeValues fvs := (hset v).mp hv
  have hany : (normalizeValues evs).any
      (fun ev => (normalizeValues fvs).contains ev) = true := by
    simp only [List.any_eq_true, contains_true_iff]
    exact ⟨v, hv, hvf⟩
  have hany2 : (normalizeValues fvs).any
      (fun fv => (normalizeValues evs).contains fv) = true := by
    simp only [List.any_eq_true, contains_true_iff]
    exact ⟨v, hvf, hv⟩
  have hall : (normalizeValues fvs).all
      (fun fv => (normalizeValues evs).contains fv) = true := by
    simp only [List.all_eq_true, contains_true_iff]
    exact fun x hx => (hset x).mpr hx
  have heqq : (normalizeValues evs).any
      (fun rv => (normalizeValues fvs).any (fun fv => rv == fv)) = true := by
    simp only [List.any_eq_true]
    exact ⟨v, hv, v, hvf, by simp⟩
  have hsuball : (normalizeValues fvs).all
      (fun fv => (normalizeValues evs).any
        (fun rv => pyStrIn (pyLower fv) (pyLower rv))) = true := by
    simp only [List.all_eq_true, List.any_eq_true]
    exact fun x hx => ⟨x, (hset x).mpr hx, pyStrIn_self (pyLower x)⟩
  refine ⟨hany, hany, rfl, hany2, hall, ?_, ?_, rfl, heqq, ?_, hany, hany,
    hany, hsuball, ?_, ?_⟩
  · show (!(normalizeValues evs).any
      (fun ev => (normalizeValues fvs).contains ev)) = false
    rw [hany]; rfl
  · show (!(normalizeValues fvs).any
      (fun fv => (normalizeValues evs).contains fv)) = false
    rw [hany2]; rfl
  · show (!(normalizeValues evs).any
      (fun rv => (normalizeValues fvs).any (fun fv => rv == fv))) = false
    rw [heqq]; rfl
  · show (!(normalizeValues evs).any
      (fun rv => (normalizeValues fvs).contains rv)) = false
    rw [hany]; rfl
  · show (!(normalizeValues evs).any
      (fun rv => (normalizeValues fvs).contains rv)) = false
    rw [hany]; rfl

/-- Witness for the amended C2 at the concrete record value set
`{"techno"}` equal to the operand set. -/
theorem C2_amended_exact_operand_set_witness :
    advApplyFilterOperator ["techno"] "eq" ["techno"] "AND" = true
    ∧ advApplyFilterOperator ["techno"] "contains_all" ["techno"] "AND" = true
    ∧ searchApplyFilterOperator ["techno"] "ne" ["techno"] "AND" = false :=
  have h := C2_amended_exact_operand_set ["techno"] ["techno"] "AND"
    (fun _ => Iff.rfl) (by decide)
  ⟨h.1, h.2.2.2.2.1, h.2.2.2.2.2.2.2.2.2.1⟩

/-- Counterexample to claim C4 as stated: on the multi-valued extracted
sequence `["5", "31"]`, `between 10,30` is false (no single value lies in
the range) while `gte 10` and `lte 30` are both true (witnessed by
different values), so the claimed equivalence fails. -/
theorem C4_counterexample_multivalued :
    advApplyFilterOperator ["5", "31"] "between" ["10", "30"] "AND" = false
    ∧ advApplyFilterOperator ["5", "31"] "gte" ["10"] "AND" = true
    ∧ advApplyFilterOperator ["5", "31"] "lte" ["30"] "AND" = true := by
  decide

theorem adv_between_def (evs fvs : List String) (lop : String) :
    advApplyFilterOperator evs "between" fvs lop =
      (if (normalizeValues evs).isEmpty || (normalizeValues fvs).length < 2
       then false
       else
        match pyFloats? (normalizeValues evs),
            pyFloat? ((normalizeValues fvs).getD 0 ""),
            pyFloat? ((normalizeValues fvs).getD 1 "") with
        | some nevs, some min_val, some max_val =>
          nevs.any (fun ev => decide (min_val ≤ ev) && decide (ev ≤ max_val))
        | _, _, _ => false) := rfl

theorem adv_gte_def (evs fvs : List String) (lop : String) :
    advApplyFilterOperator evs "gte" fvs lop =
      (if (normalizeValues evs).isEmpty || (normalizeValues fvs).isEmpty
       then false
       else
        match pyFloats? (normalizeValues evs),
            pyFloat? ((normalizeValues fvs).getD 0 "") with
        | some nevs, some nfv => nevs.any (fun ev => decide (nfv ≤ ev))
        | _, _ => false) := rfl

theorem adv_lte_def (evs fvs : List String) (lop : String) :
    advApplyFilterOperator evs "lte" fvs lop =
      (if (normalizeValues evs).isEmpty || (normalizeValues fvs).isEmpty
       then false
       else
        match pyFloats? (normalizeValues evs),
            pyFloat? ((normalizeValues fvs).getD 0 "") with
        | some nevs, some nfv => nevs.any (fun ev => decide (ev ≤ nfv))
        | _, _ => false) := rfl

theorem normalizeValues_pair (lo hi : String) :
    normalizeValues [lo, hi] = normalizeValues [lo] ++ normalizeValues [hi] := by
  by_cases hlo : lo = "" <;> by_cases hhi : hi = "" <;>
    simp [normalizeValues, hlo, hhi]

/-- Claim C4, amended: `between lo,hi` always implies `gte lo AND lte hi`;
the converse — and hence the claimed equivalence — holds whenever the
record's normalized extracted value sequence has at most one element, but
can fail on multi-valued sequences, where `gte` and `lte` may be witnessed
by two different extracted values. -/
theorem C4_amended_between_gte_lte (evs : List String) (lo hi lop : String) :
    (advApplyFilterOperator evs "between" [lo, hi] lop = true →
      advApplyFilterOperator evs "gte" [lo] lop = true
      ∧ advApplyFilterOperator evs "lte" [hi] lop = true)
    ∧ ((normalizeValues evs).length ≤ 1 →
      advApplyFilterOperator evs "between" [lo, hi] lop =
        (advApplyFilterOperator evs "gte" [lo] lop
          && advApplyFilterOperator evs "lte" [hi] lop)) := by
  rw [adv_between_def, adv_gte_def, adv_lte_def, normalizeValues_pair]
  by_cases hlo : lo = ""
  · have h0 : normalizeValues [lo] = [] := by simp [normalizeValues, hlo]
    have hl1 : (normalizeValues [hi]).length < 2 := by
      by_cases h : hi = "" <;> simp [normalizeValues, h]
    simp [h0, hl1]
  · have h0 : normalizeValues [lo] = [pyStrip (pyLower lo)] := by
      simp [normalizeValues, hlo]
    by_cases hhi : hi = ""
    · have h1 : normalizeValues [hi] = [] := by simp [normalizeValues, hhi]
      have hl1 : (normalizeValues [lo] ++ []).length < 2 := by
        simp [h0]
      simp [h1, hl1, h0]
    · have h1 : normalizeValues [hi] = [pyStrip (pyLower hi)] := by
        simp [normalizeValues, hhi]
      rw [h0, h1]
      by_cases hE : (normalizeValues evs).isEmpty
      · simp [hE]
      · simp only [hE, Bool.false_or, List.cons_append, List.nil_append,
          List.length_cons, List.length_singleton, List.getD_cons_zero,
          List.getD_cons_succ, List.isEmpty_cons]
        rcases hfE : pyFloats? (normalizeValues evs) with _ | nevs
        · simp
        · rcases hfl : pyFloat? (pyStrip (pyLower lo)) with _ | l
          · simp
          · rcases hfh : pyFloat? (pyStrip (pyLower hi)) with _ | h
            · simp
            · constructor
              · intro hb
                replace hb : nevs.any
                    (fun ev => decide (l ≤ ev) && decide (ev ≤ h)) = true := hb
                rw [List.any_eq_true] at hb
                obtain ⟨q, hq, hcmp⟩ := hb
                rw [Bool.and_eq_true, decide_eq_true_iff, decide_eq_true_iff]
                  at hcmp
                constructor
                · show nevs.any (fun ev => decide (l ≤ ev)) = true
                  rw [List.any_eq_true]
                  exact ⟨q, hq, by simp [hcmp.1]⟩
                · show nevs.any (fun ev => decide (ev ≤ h)) = true
                  rw [List.any_eq_true]
                  exact ⟨q, hq, by simp [hcmp.2]⟩
              · intro hlen
                have hEe : ∃ v, normalizeValues evs = [v] := by
                  cases hc : normalizeValues evs with
                  | nil => rw [hc] at hE; simp at hE
                  | cons a t =>
                    cases t with
                    | nil => exact ⟨a, rfl⟩
                    | cons b t' => rw [hc] at hlen; simp at hlen
                obtain ⟨v, hv⟩ := hEe
                rw [hv] at hfE
                have hqv : ∃ q, pyFloat? v = some q ∧ nevs = [q] := by
                  cases hpv : pyFloat? v with
                  | none => simp [pyFloats?, hpv] at hfE
                  | some q =>
                    simp [pyFloats?, hpv] at hfE
                    exact ⟨q, rfl, hfE.symm⟩
                obtain ⟨q, hpv, hnevs⟩ := hqv
                subst hnevs
                show ([q].any fun ev => decide (l ≤ ev) && decide (ev ≤ h)) =
                  (([q].any fun ev => decide (l ≤ ev))
                    && ([q].any fun ev => decide (ev ≤ h)))
                simp

/-- Witness for the amended C4 at the single-valued record `["15"]` and
operand pair `(10, 30)`. -/
theorem C4_amended_between_gte_lte_witness :
    (advApplyFilterOperator ["15"] "gte" ["10"] "AND" = true
      ∧ advApplyFilterOperator ["15"] "lte" ["30"] "AND" = true)
    ∧ advApplyFilterOperator ["15"] "between" ["10", "30"] "AND" =
        (advApplyFilterOperator ["15"] "gte" ["10"] "AND"
          && advApplyFilterOperator ["15"] "lte" ["30"] "AND") :=
  ⟨(C4_amended_between_gte_lte ["15"] "10" "30" "AND").1 (by decide),
   (C4_amended_between_gte_lte ["15"] "10" "30" "AND").2 (by decide)⟩

/-! ## Dictionary lemmas for the server-side filter mapping -/

theorem keys_dictInsert {α : Type} (d : List (String × α)) (k : String)
    (v : α) (hd : (d.map Prod.fst).Nodup) :
    ((dictInsert d k v).map Prod.fst).Nodup := by
  unfold dictInsert
  split
  case isTrue hany =>
    have hmap : (Prod.fst ∘ fun p : String × α => if p.1 == k then (k, v) else p)
        = Prod.fst := by
      funext p
      show Prod.fst (if p.1 == k then (k, v) else p) = p.1
      by_cases hp : (p.1 == k) = true
      · rw [if_pos hp]; exact (eq_of_beq hp).symm
      · rw [if_neg (by simp_all)]
    rw [List.map_map, hmap]
    exact hd
  case isFalse hany =>
    have hk : k ∉ d.map Prod.fst := by
      intro hmem
      obtain ⟨p, hp, hpk⟩ := List.mem_map.mp hmem
      exact hany (List.any_eq_true.mpr ⟨p, hp, by simp [hpk]⟩)
    simp [List.nodup_append, hd, hk]

theorem keys_addGraphqlFilter (gf : List (String × GqlFilter))
    (field operator values : String)
    (h : (gf.map Prod.fst).Nodup) :
    ((addGraphqlFilter gf field operator values).map Prod.fst).Nodup := by
  unfold addGraphqlFilter
  split
  · exact keys_dictInsert _ _ _ h
  · split
    · exact keys_dictInsert _ _ _ h
    · exact h

theorem keys_enhAddGraphqlFilter (gf : List (String × EnhDescriptor))
    (field operator values : String)
    (h : (gf.map Prod.fst).Nodup) :
    ((enhAddGraphqlFilter gf field operator values).map Prod.fst).Nodup := by
  unfold enhAddGraphqlFilter
  split
  · exact keys_dictInsert _ _ _ h
  · split
    · exact keys_dictInsert _ _ _ h
    · split
      · exact keys_dictInsert _ _ _ h
      · split
        · exact keys_dictInsert _ _ _ h
        · exact h

theorem processPart_keys (st st' : String × FilterPlan) (part : String)
    (h : processPart st part = .ok st')
    (hk : (st.2.graphql_filters.map Prod.fst).Nodup) :
    (st'.2.graphql_filters.map Prod.fst).Nodup := by
  simp only [processPart] at h
  split at h
  · cases h; exact hk
  · split at h
    · split at h
      · exact Except.noConfusion h
      · split at h
        · cases h; dsimp only; exact keys_addGraphqlFilter _ _ _ _ hk
        · split at h
          · cases h; dsimp only; exact keys_addGraphqlFilter _ _ _ _ hk
          · cases h; exact hk
    · cases h; exact hk

theorem enhProcessPart_keys (st st' : String × EnhFilterPlan) (part : String)
    (h : enhProcessPart st part = .ok st')
    (hk : (st.2.graphql_filters.map Prod.fst).Nodup) :
    (st'.2.graphql_filters.map Prod.fst).Nodup := by
  simp only [enhProcessPart] at h
  split at h
  · cases h; exact hk
  · split at h
    · split at h
      · exact Except.noConfusion h
      · split at h
        · cases h; dsimp only; exact keys_enhAddGraphqlFilter _ _ _ _ hk
        · cases h; exact hk
    · cases h; exact hk

theorem runParts_keys {σ : Type} (inv : σ → Prop)
    (step : σ → String → Except String σ)
    (hstep : ∀ st st' p, step st p = .ok st' → inv st → inv st')
    (parts : List String) :
    ∀ st st', runParts step parts st = .ok st' → inv st → inv st' := by
  induction parts with
  | nil => intro st st' h hi; cases h; exact hi
  | cons p ps ih =>
    intro st st' h hi
    simp only [runParts] at h
    split at h
    · exact Except.noConfusion h
    case h_2 st1 heq => exact ih st1 st' h (hstep st st1 p heq hi)

theorem find_in_mapped {α : Type} (d : List (String × α)) (k : String) (v : α)
    (hany : d.any (fun p => p.1 == k) = true) :
    ((d.map (fun p => if p.1 == k then (k, v) else p)).find?
      (fun p => p.1 == k)).map Prod.snd = some v := by
  induction d with
  | nil => simp at hany
  | cons q d ih =>
    rw [List.map_cons]
    by_cases hp : (q.1 == k) = true
    · rw [if_pos hp, List.find?_cons]
      have hkk : ((k, v).1 == k) = true := by simp
      rw [hkk]
      rfl
    · rw [Bool.not_eq_true] at hp
      rw [if_neg (by simp [hp]), List.find?_cons, hp]
      simp only [List.any_cons, hp, Bool.false_or] at hany
      exact ih hany


theorem find_append_new {α : Type} (d : List (String × α)) (k : String) (v : α)
    (hnone : d.any (fun p => p.1 == k) = false) :
    ((d ++ [(k, v)]).find? (fun p => p.1 == k)).map Prod.snd = some v := by
  induction d with
  | nil =>
    rw [List.nil_append, List.find?_cons]
    have hkk : ((k, v).1 == k) = true := by simp
    rw [hkk]
    rfl
  | cons q d ih =>
    simp only [List.any_cons, Bool.or_eq_false_iff] at hnone
    rw [List.cons_append, List.find?_cons, hnone.1]
    exact ih hnone.2

theorem dictLookup_dictInsert {α : Type} (d : List (String × α)) (k : String)
    (v : α) : dictLookup (dictInsert d k v) k = some v := by
  unfold dictInsert dictLookup
  split
  case isTrue hany => exact find_in_mapped d k v hany
  case isFalse hany =>
    exact find_append_new d k v (Bool.not_eq_true _ ▸ Bool.of_not_eq_true hany)

/-- Claim C8: in every parsed plan (advanced and enhanced engine alike) the
server-side filter mapping has at most one descriptor per field name, and a
later server-delegable clause on a field overwrites (advanced `eq`/`any`)
or merges into (enhanced `gte`) the field's earlier descriptor. -/
theorem C8_server_filters_one_descriptor_per_field :
    (∀ expr plan, parseExpression expr = .ok plan →
      (plan.graphql_filters.map Prod.fst).Nodup)
    ∧ (∀ gf field values,
        dictLookup (addGraphqlFilter gf field "eq" values) field =
          some (GqlFilter.eq values))
    ∧ (∀ gf field values,
        dictLookup (addGraphqlFilter gf field "any" values) field =
          some (GqlFilter.any ((pySplit ',' values).map pyStrip)))
    ∧ (∀ expr plan, enhParseExpression expr = .ok plan →
      (plan.graphql_filters.map Prod.fst).Nodup)
    ∧ (∀ gf field values cur, dictLookup gf field = some cur →
        dictLookup (enhAddGraphqlFilter gf field "gte" values) field =
          some (dictInsert cur "gte" values)) := by
  refine ⟨?_, ?_, ?_, ?_, ?_⟩
  · intro expr plan h
    unfold parseExpression at h
    split at h
    · exact Except.noConfusion h
    case h_2 st heq =>
      cases h
      exact runParts_keys
        (fun st : String × FilterPlan => (st.2.graphql_filters.map Prod.fst).Nodup)
        processPart (fun a b p hh hi => processPart_keys a b p hh hi)
        (reSplitLogical expr) _ st heq List.nodup_nil
  · intro gf field values
    show dictLookup (dictInsert gf field (GqlFilter.eq values)) field = _
    exact dictLookup_dictInsert gf field _
  · intro gf field values
    show dictLookup (dictInsert gf field
      (GqlFilter.any ((pySplit ',' values).map pyStrip))) field = _
    exact dictLookup_dictInsert gf field _
  · intro expr plan h
    unfold enhParseExpression at h
    split at h
    · exact Except.noConfusion h
    case h_2 st heq =>
      cases h
      exact runParts_keys
        (fun st : String × EnhFilterPlan => (st.2.graphql_filters.map Prod.fst).Nodup)
        enhProcessPart (fun a b p hh hi => enhProcessPart_keys a b p hh hi)
        (reSplitLogical expr) _ st heq List.nodup_nil
  · intro gf field values cur hcur
    show dictLookup (dictInsert gf field
      (dictInsert ((dictLookup gf field).getD []) "gte" values)) field = _
    rw [hcur]
    exact dictLookup_dictInsert gf field _

/-- Witness for C8: a concrete advanced parse, a concrete enhanced parse
whose two clauses merge into one `date` descriptor, and a concrete
merge-preserving lookup. -/
theorem C8_server_filters_one_descriptor_per_field_witness :
    (([("genre", GqlFilter.eq "techno")] : List (String × GqlFilter)).map
      Prod.fst).Nodup
    ∧ (([("date", [("gte", "2024-01-01"), ("lte", "2024-02-01")])] :
        List (String × EnhDescriptor)).map Prod.fst).Nodup
    ∧ dictLookup (enhAddGraphqlFilter [("date", [("lte", "z")])]
        "date" "gte" "x") "date" = some (dictInsert [("lte", "z")] "gte" "x") :=
  ⟨C8_server_filters_one_descriptor_per_field.1 "genre:eq:techno"
      ⟨[("genre", GqlFilter.eq "techno")], []⟩ (by rfl),
   C8_server_filters_one_descriptor_per_field.2.2.2.1
      "date:gte:2024-01-01 AND date:lte:2024-02-01"
      ⟨[("date", [("gte", "2024-01-01"), ("lte", "2024-02-01")])], []⟩ (by rfl),
   C8_server_filters_one_descriptor_per_field.2.2.2.2
      [("date", [("lte", "z")])] "date" "x" [("lte", "z")] (by rfl)⟩
